import Mathlib

/-!
The packet codec and the timestamp conversion of ntp-check.

A shallow embedding of `ntp-check.go`.

* Machine integers are `Nat` / `Int`; every place where the Go code can wrap
  carries an explicit reduction modulo the width of the Go type.
* A byte buffer (`[]byte`) is a `List Nat` whose elements are below 256
  (`IsBytes`).
* A method with a pointer receiver that mutates it (`Unmarshal`) takes the prior
  state of the receiver and returns its new state together with the error.
* An `error` is an `Option String`: `none` is the `nil` of Go, `some msg` an error
  whose text is `msg`.
-/

namespace NtpCheck

/-! ## Data model -/

/-- The struct `ntpPacket` (ntp-check.go, lines 12-34): seventeen fields. -/
structure ntpPacket where
  LI : Nat
  VN : Nat
  Mode : Nat
  Stratum : Nat
  Poll : Nat
  Prec : Int
  RootDelay : Nat
  RootDispersion : Nat
  ReferenceID : Nat
  ReferenceTimeSec : Nat
  ReferenceTimeFrac : Nat
  OriginateTimeSec : Nat
  OriginateTimeFrac : Nat
  ReceiveTimeSec : Nat
  ReceiveTimeFrac : Nat
  TransmitTimeSec : Nat
  TransmitTimeFrac : Nat
  deriving DecidableEq, Repr

/-- The zero value `ntpPacket{}` of the struct. -/
def ntpPacket.zero : ntpPacket :=
  ⟨0, 0, 0, 0, 0, 0, 0, 0, 0, 0, 0, 0, 0, 0, 0, 0, 0⟩

/-- Every field lies in the range of its Go type: `uint8` for the first five,
`int8` for `Prec`, `uint32` for the remaining eleven. -/
def ntpPacket.InGoTypes (p : ntpPacket) : Prop :=
  p.LI < 256 ∧ p.VN < 256 ∧ p.Mode < 256 ∧ p.Stratum < 256 ∧ p.Poll < 256 ∧
  (-128 ≤ p.Prec ∧ p.Prec ≤ 127) ∧
  p.RootDelay < 2 ^ 32 ∧ p.RootDispersion < 2 ^ 32 ∧ p.ReferenceID < 2 ^ 32 ∧
  p.ReferenceTimeSec < 2 ^ 32 ∧ p.ReferenceTimeFrac < 2 ^ 32 ∧
  p.OriginateTimeSec < 2 ^ 32 ∧ p.OriginateTimeFrac < 2 ^ 32 ∧
  p.ReceiveTimeSec < 2 ^ 32 ∧ p.ReceiveTimeFrac < 2 ^ 32 ∧
  p.TransmitTimeSec < 2 ^ 32 ∧ p.TransmitTimeFrac < 2 ^ 32

instance (p : ntpPacket) : Decidable p.InGoTypes := by
  unfold ntpPacket.InGoTypes; infer_instance

/-- A list of naturals is a `[]byte` when each element is below 256. -/
def IsBytes (b : List Nat) : Prop := ∀ x ∈ b, x < 256

instance (b : List Nat) : Decidable (IsBytes b) := by
  unfold IsBytes; infer_instance

/-! ## Conversions between Go integer types -/

/-- The conversion `byte(x)` of an `int8`: the bit pattern in twos complement. -/
def byteOfInt8 (x : Int) : Nat := (x % 256).toNat

/-- The conversion `int8(b)` of a byte: bit patterns from 128 up are negative. -/
def int8OfByte (b : Nat) : Int := if b % 256 < 128 then (b % 256 : Nat) else (b % 256 : Nat) - 256

/-- Wrap-around of `int64` arithmetic. -/
def wrapInt64 (x : Int) : Int := (x + 2 ^ 63) % 2 ^ 64 - 2 ^ 63

/-- The conversion `uint32(x)` of an `int64`: the low 32 bits. -/
def uint32OfInt64 (x : Int) : Nat := (x % 2 ^ 32).toNat

/-! ## encoding/binary, big endian -/

/-- The index expression `data[i]` on a buffer (callers stay within bounds). -/
def byteAt (data : List Nat) (i : Nat) : Nat := data.getD i 0

/-- The slice expression `data[lo:hi]`, read-only use. -/
def slice (data : List Nat) (lo hi : Nat) : List Nat := (data.drop lo).take (hi - lo)

/-- `binary.BigEndian.Uint32(b)`:
`uint32(b[3]) | uint32(b[2])<<8 | uint32(b[1])<<16 | uint32(b[0])<<24`. -/
def Uint32 (b : List Nat) : Nat :=
  byteAt b 3 ||| (byteAt b 2 <<< 8) % 2 ^ 32 ||| (byteAt b 1 <<< 16) % 2 ^ 32 |||
    (byteAt b 0 <<< 24) % 2 ^ 32

/-- `binary.BigEndian.PutUint32(buf[off:off+4], v)`: the slice shares the
storage of `buf`, so the four bytes land at `off .. off+3` of `buf`:
`b[0] = byte(v >> 24); b[1] = byte(v >> 16); b[2] = byte(v >> 8); b[3] = byte(v)`. -/
def PutUint32 (buf : List Nat) (off v : Nat) : List Nat :=
  (((buf.set off ((v >>> 24) % 256)).set (off + 1) ((v >>> 16) % 256)).set (off + 2)
    ((v >>> 8) % 256)).set (off + 3) (v % 256)

/-! ## The codec -/

/-- `func (p *ntpPacket) Marshal() ([]byte, error)` (lines 99-121). The first
byte is computed in `uint8`, so each shift is reduced modulo 256. -/
def Marshal (p : ntpPacket) : List Nat × Option String :=
  let buf := List.replicate 48 0
  let buf := buf.set 0 ((p.LI <<< 6) % 256 ||| (p.VN <<< 3) % 256 ||| p.Mode)
  let buf := buf.set 1 p.Stratum
  let buf := buf.set 2 p.Poll
  let buf := buf.set 3 (byteOfInt8 p.Prec)
  let buf := PutUint32 buf 4 p.RootDelay
  let buf := PutUint32 buf 8 p.RootDispersion
  let buf := PutUint32 buf 12 p.ReferenceID
  let buf := PutUint32 buf 16 p.ReferenceTimeSec
  let buf := PutUint32 buf 20 p.ReferenceTimeFrac
  let buf := PutUint32 buf 24 p.OriginateTimeSec
  let buf := PutUint32 buf 28 p.OriginateTimeFrac
  let buf := PutUint32 buf 32 p.ReceiveTimeSec
  let buf := PutUint32 buf 36 p.ReceiveTimeFrac
  let buf := PutUint32 buf 40 p.TransmitTimeSec
  let buf := PutUint32 buf 44 p.TransmitTimeFrac
  (buf, none)

/-- `func (p *ntpPacket) Unmarshal(data []byte) error` (lines 124-149): the
first component is the receiver after the call, the second the error. -/
def Unmarshal (p : ntpPacket) (data : List Nat) : ntpPacket × Option String :=
  if data.length ≠ 48 then
    (p, some ("invalid NTP packet size: " ++ toString data.length))
  else
    let p := { p with LI := byteAt data 0 >>> 6 }
    let p := { p with VN := (byteAt data 0 >>> 3) &&& 0x07 }
    let p := { p with Mode := byteAt data 0 &&& 0x07 }
    let p := { p with Stratum := byteAt data 1 }
    let p := { p with Poll := byteAt data 2 }
    let p := { p with Prec := int8OfByte (byteAt data 3) }
    let p := { p with RootDelay := Uint32 (slice data 4 8) }
    let p := { p with RootDispersion := Uint32 (slice data 8 12) }
    let p := { p with ReferenceID := Uint32 (slice data 12 16) }
    let p := { p with ReferenceTimeSec := Uint32 (slice data 16 20) }
    let p := { p with ReferenceTimeFrac := Uint32 (slice data 20 24) }
    let p := { p with OriginateTimeSec := Uint32 (slice data 24 28) }
    let p := { p with OriginateTimeFrac := Uint32 (slice data 28 32) }
    let p := { p with ReceiveTimeSec := Uint32 (slice data 32 36) }
    let p := { p with ReceiveTimeFrac := Uint32 (slice data 36 40) }
    let p := { p with TransmitTimeSec := Uint32 (slice data 40 44) }
    let p := { p with TransmitTimeFrac := Uint32 (slice data 44 48) }
    (p, none)

/-! ## float64 arithmetic

A finite float64 value is the rational number it denotes; an operation yields
`none` when its result is not finite. Every operation rounds its exact result to
the nearest representable value, a tie going to the even significand (IEEE 754
binary64, the arithmetic Go specifies for `float64`). -/

/-- Nearest integer to a rational, a tie going to the even neighbour. -/
def roundHalfEven (x : ℚ) : ℤ :=
  if x - ⌊x⌋ < 1 / 2 then ⌊x⌋
  else if 1 / 2 < x - ⌊x⌋ then ⌊x⌋ + 1
  else if ⌊x⌋ % 2 = 0 then ⌊x⌋ else ⌊x⌋ + 1

/-- Exponent of the unit in the last place of binary64 at the magnitude of `q`:
53 significant bits, and never below the subnormal spacing `2 ^ (-1074)`. -/
def f64UlpExp (q : ℚ) : ℤ := max (Int.log 2 |q| - 52) (-1074)

/-- Rounding of an exact value to the nearest binary64 value (ties to even);
`none` when the rounded value exceeds the largest finite binary64 value. -/
def f64Round (q : ℚ) : Option ℚ :=
  let r := (roundHalfEven (q / 2 ^ f64UlpExp q) : ℚ) * 2 ^ f64UlpExp q
  if |r| < 2 ^ 1024 then some r else none

/-- Quotient `a / b` of two float64 values. -/
def f64Div (a b : ℚ) : Option ℚ := if b = 0 then none else f64Round (a / b)

/-- Product `a * b` of two float64 values. -/
def f64Mul (a b : ℚ) : Option ℚ := f64Round (a * b)

/-- The conversion `int64(x)` of a float64: the fraction is discarded
(truncation towards zero); `none` when the result does not fit `int64`, where Go
leaves the value to the implementation. -/
def int64OfFloat64 (x : ℚ) : Option Int :=
  let t := if 0 ≤ x then ⌊x⌋ else ⌈x⌉
  if -2 ^ 63 ≤ t ∧ t < 2 ^ 63 then some t else none

/-! ## Timestamp conversion -/

/-- A `time.Time`, observed through `t.Unix()` (whole seconds since 1970) and
`t.Nanosecond()` (the nanoseconds within that second). -/
structure Time where
  sec : Int
  nsec : Int
  deriving DecidableEq, Repr

/-- The library function `time.Unix(sec, nsec)`: a nanosecond count outside
`[0, 999999999]` is carried into the seconds. The division is the `int64`
division of Go, which truncates towards zero. -/
def Unix (sec nsec : Int) : Time :=
  if nsec < 0 ∨ nsec ≥ 1000000000 then
    let n := Int.tdiv nsec 1000000000
    let sec := wrapInt64 (sec + n)
    let nsec := wrapInt64 (nsec - wrapInt64 (n * 1000000000))
    if nsec < 0 then ⟨wrapInt64 (sec - 1), wrapInt64 (nsec + 1000000000)⟩ else ⟨sec, nsec⟩
  else ⟨sec, nsec⟩

/-- The constant `ntpEpochOffset` (line 163). -/
def ntpEpochOffset : Int := 2208988800

/-- The constant `ntpFractionalScale` (line 164). -/
def ntpFractionalScale : Nat := 4294967296

/-- The float64 expression of line 168,
`float64(fractions) / float64(ntpFractionalScale) * 1e9`, evaluated left to
right. -/
def nsecFloat64 (fractions : Nat) : Option ℚ := do
  let x ← f64Round (fractions : ℚ)
  let scale ← f64Round (ntpFractionalScale : ℚ)
  let y ← f64Div x scale
  let giga ← f64Round 1000000000
  f64Mul y giga

/-- `func ntpTimestampToTime(seconds uint32, fractions uint32) time.Time`
(lines 162-171); `none` would be a float64 value that is not finite or does not
fit `int64`. -/
def ntpTimestampToTime (seconds fractions : Nat) : Option Time := do
  let sec := wrapInt64 ((seconds : Int) - ntpEpochOffset)
  let x ← nsecFloat64 fractions
  let nsec ← int64OfFloat64 x
  pure (Unix sec nsec)

/-- `func (p *ntpPacket) ReferenceTime() time.Time` (lines 152-154). -/
def ReferenceTime (p : ntpPacket) : Option Time :=
  ntpTimestampToTime p.ReferenceTimeSec p.ReferenceTimeFrac

/-- `func (p *ntpPacket) TransmitTime() time.Time` (lines 157-159). -/
def TransmitTime (p : ntpPacket) : Option Time :=
  ntpTimestampToTime p.TransmitTimeSec p.TransmitTimeFrac

/-- `func createNTPPacket() ntpPacket` (lines 174-184); `now` is the value of
`time.Now().Unix()`, an `int64`. Fields the composite literal does not name are
zero. -/
def createNTPPacket (now : Int) : ntpPacket :=
  { ntpPacket.zero with
    LI := 0
    VN := 4
    Mode := 3
    Stratum := 0
    Poll := 0
    Prec := -6
    TransmitTimeSec := uint32OfInt64 (wrapInt64 (now + 2208988800)) }

/-! ## The report of `main` -/

/-- The float64 expression `float64(v)/float64(1<<16)*1000` that `main` prints for
a 16.16 fixed-point field `v` (lines 90 and 91), evaluated left to right. -/
def fixedPointMillis (v : Nat) : Option ℚ := do
  let x ← f64Round (v : ℚ)
  let scale ← f64Round (((1 <<< 16 : Nat) : ℚ))
  let y ← f64Div x scale
  let kilo ← f64Round 1000
  f64Mul y kilo

/-- The value printed as "Root Delay (ms):" (line 90). -/
def rootDelayMillis (p : ntpPacket) : Option ℚ := fixedPointMillis p.RootDelay

/-- The value printed as "Root Dispersion (ms):" (line 91). -/
def rootDispersionMillis (p : ntpPacket) : Option ℚ := fixedPointMillis p.RootDispersion

/-- Steps 5 and 6 of `main` (lines 78-90) on a response buffer: a fresh
`ntpPacket{}` is filled by `Unmarshal`; an error ends the program
(`log.Fatalf`), otherwise the root delay in milliseconds is computed. -/
def mainRootDelay (response : List Nat) : Except String (Option ℚ) :=
  match Unmarshal ntpPacket.zero response with
  | (_, some err) => Except.error ("Failed to unmarshal NTP response: " ++ err)
  | (responsePacket, none) => Except.ok (rootDelayMillis responsePacket)

/-! ## Values used in statements -/

/-- A packet whose LI, VN and Mode exceed two, three and three bits. -/
def widePacket : ntpPacket :=
  ⟨5, 9, 12, 2, 6, -20, 65536, 4294967295, 0x47505300, 3913056000, 2147483648,
    1, 2, 3, 4, 3913056001, 0⟩

/-- The instant of a `Time` in nanoseconds since 1970: seconds * 10^9 + nanoseconds. -/
def Time.nanos (t : Time) : Int := t.sec * 1000000000 + t.nsec

/-- A 48-byte buffer whose first byte is 0xDB and whose other bytes are zero. -/
def bufferDB : List Nat := 0xDB :: List.replicate 47 0

/-- The big-endian value of the four bytes of `b` starting at offset `k`. -/
def bigEndianValue (b : List Nat) (k : Nat) : Nat :=
  byteAt b k * 2 ^ 24 + byteAt b (k + 1) * 2 ^ 16 + byteAt b (k + 2) * 2 ^ 8 + byteAt b (k + 3)


/-- A packet used to instantiate the theorems: leap indicator 3, version 4,
mode 3, negative precision, sixteen-bit and thirty-two-bit extremes. -/
def samplePacket : ntpPacket :=
  ⟨3, 4, 3, 2, 6, -20, 65536, 4294967295, 0x47505300, 3913056000, 2147483648,
    1, 2, 3, 4, 3913056001, 0⟩

/-- A 48-byte buffer used to instantiate the theorems. -/
def sampleBuffer : List Nat :=
  [0xE3, 1, 255, 0xEC, 0, 1, 0, 0, 0, 0, 2, 3, 71, 80, 83, 0,
   233, 60, 175, 0, 128, 0, 0, 0, 255, 255, 255, 255, 0, 0, 0, 0,
   1, 2, 3, 4, 5, 6, 7, 8, 233, 60, 175, 1, 255, 254, 253, 252]


/-! ## Lemmas about the codec -/

theorem byteAt_lt {b : List Nat} (hb : IsBytes b) (i : Nat) : byteAt b i < 256 := by
  unfold byteAt
  by_cases h : i < b.length
  · rw [List.getD_eq_getElem _ _ h]
    exact hb _ (List.getElem_mem h)
  · rw [List.getD_eq_default _ _ (Nat.le_of_not_lt h)]
    decide

theorem byteAt_slice (b : List Nat) (lo hi i : Nat) (h : i < hi - lo) :
    byteAt (slice b lo hi) i = byteAt b (lo + i) := by
  simp [byteAt, slice, List.getElem?_take, h]

theorem or_shift_eq (b0 b1 b2 b3 : Nat) (h0 : b0 < 256) (h1 : b1 < 256) (h2 : b2 < 256)
    (h3 : b3 < 256) :
    b3 ||| (b2 <<< 8) % 2 ^ 32 ||| (b1 <<< 16) % 2 ^ 32 ||| (b0 <<< 24) % 2 ^ 32
      = b0 * 2 ^ 24 + b1 * 2 ^ 16 + b2 * 2 ^ 8 + b3 := by
  simp only [Nat.shiftLeft_eq]
  rw [Nat.mod_eq_of_lt (by omega), Nat.mod_eq_of_lt (by omega), Nat.mod_eq_of_lt (by omega)]
  have e1 : b3 ||| b2 * 2 ^ 8 = 2 ^ 8 * b2 + b3 := by
    rw [Nat.or_comm, Nat.mul_comm b2]
    exact (Nat.mul_add_lt_is_or (by omega) b2).symm
  have e2 : (2 ^ 8 * b2 + b3) ||| b1 * 2 ^ 16 = 2 ^ 16 * b1 + (2 ^ 8 * b2 + b3) := by
    rw [Nat.or_comm, Nat.mul_comm b1]
    exact (Nat.mul_add_lt_is_or (by omega) b1).symm
  have e3 : (2 ^ 16 * b1 + (2 ^ 8 * b2 + b3)) ||| b0 * 2 ^ 24
      = 2 ^ 24 * b0 + (2 ^ 16 * b1 + (2 ^ 8 * b2 + b3)) := by
    rw [Nat.or_comm, Nat.mul_comm b0]
    exact (Nat.mul_add_lt_is_or (by omega) b0).symm
  rw [e1, e2, e3]
  omega

theorem Uint32_slice (b : List Nat) (hb : IsBytes b) (k : Nat) :
    Uint32 (slice b k (k + 4)) = bigEndianValue b k := by
  unfold Uint32 bigEndianValue
  rw [byteAt_slice b k (k + 4) 3 (by omega), byteAt_slice b k (k + 4) 2 (by omega),
    byteAt_slice b k (k + 4) 1 (by omega), byteAt_slice b k (k + 4) 0 (by omega)]
  exact or_shift_eq _ _ _ _ (byteAt_lt hb _) (byteAt_lt hb _) (byteAt_lt hb _) (byteAt_lt hb _)

theorem int8OfByte_byteOfInt8 (x : Int) (h1 : -128 ≤ x) (h2 : x ≤ 127) :
    int8OfByte (byteOfInt8 x) = x := by
  unfold int8OfByte byteOfInt8
  split <;> omega

theorem byteOfInt8_int8OfByte (b : Nat) (h : b < 256) : byteOfInt8 (int8OfByte b) = b := by
  unfold int8OfByte byteOfInt8
  split <;> omega

set_option maxRecDepth 100000 in
theorem firstByte_decode_encode : ∀ x < 256,
    ((x >>> 6) <<< 6) % 256 ||| (((x >>> 3) &&& 0x07) <<< 3) % 256 ||| (x &&& 0x07) = x := by
  decide

set_option maxRecDepth 100000 in
theorem firstByte_encode_decode : ∀ l < 4, ∀ v < 8, ∀ m < 8,
    ((l <<< 6) % 256 ||| (v <<< 3) % 256 ||| m) >>> 6 = l ∧
    (((l <<< 6) % 256 ||| (v <<< 3) % 256 ||| m) >>> 3) &&& 0x07 = v ∧
    ((l <<< 6) % 256 ||| (v <<< 3) % 256 ||| m) &&& 0x07 = m ∧
    ((l <<< 6) % 256 ||| (v <<< 3) % 256 ||| m) = l * 64 + v * 8 + m := by
  decide

set_option maxRecDepth 100000 in
theorem firstByte_fields : ∀ x < 256,
    x >>> 6 = x / 64 ∧ (x >>> 3) &&& 0x07 = (x / 8) % 8 ∧ x &&& 0x07 = x % 8 := by
  decide


theorem replicate48 : List.replicate 48 (0 : Nat) =
    [0, 0, 0, 0, 0, 0, 0, 0, 0, 0, 0, 0, 0, 0, 0, 0, 0, 0, 0, 0, 0, 0, 0, 0, 0, 0, 0, 0, 0, 0,
      0, 0, 0, 0, 0, 0, 0, 0, 0, 0, 0, 0, 0, 0, 0, 0, 0, 0] := by
  rfl

/-- The buffer built by `Marshal`, written out byte by byte. -/
theorem Marshal_bytes (p : ntpPacket) :
    (Marshal p).1 =
      [(p.LI <<< 6) % 256 ||| (p.VN <<< 3) % 256 ||| p.Mode, p.Stratum, p.Poll, byteOfInt8 p.Prec,
       (p.RootDelay >>> 24) % 256, (p.RootDelay >>> 16) % 256, (p.RootDelay >>> 8) % 256,
       p.RootDelay % 256,
       (p.RootDispersion >>> 24) % 256, (p.RootDispersion >>> 16) % 256,
       (p.RootDispersion >>> 8) % 256, p.RootDispersion % 256,
       (p.ReferenceID >>> 24) % 256, (p.ReferenceID >>> 16) % 256,
       (p.ReferenceID >>> 8) % 256, p.ReferenceID % 256,
       (p.ReferenceTimeSec >>> 24) % 256, (p.ReferenceTimeSec >>> 16) % 256,
       (p.ReferenceTimeSec >>> 8) % 256, p.ReferenceTimeSec % 256,
       (p.ReferenceTimeFrac >>> 24) % 256, (p.ReferenceTimeFrac >>> 16) % 256,
       (p.ReferenceTimeFrac >>> 8) % 256, p.ReferenceTimeFrac % 256,
       (p.OriginateTimeSec >>> 24) % 256, (p.OriginateTimeSec >>> 16) % 256,
       (p.OriginateTimeSec >>> 8) % 256, p.OriginateTimeSec % 256,
       (p.OriginateTimeFrac >>> 24) % 256, (p.OriginateTimeFrac >>> 16) % 256,
       (p.OriginateTimeFrac >>> 8) % 256, p.OriginateTimeFrac % 256,
       (p.ReceiveTimeSec >>> 24) % 256, (p.ReceiveTimeSec >>> 16) % 256,
       (p.ReceiveTimeSec >>> 8) % 256, p.ReceiveTimeSec % 256,
       (p.ReceiveTimeFrac >>> 24) % 256, (p.ReceiveTimeFrac >>> 16) % 256,
       (p.ReceiveTimeFrac >>> 8) % 256, p.ReceiveTimeFrac % 256,
       (p.TransmitTimeSec >>> 24) % 256, (p.TransmitTimeSec >>> 16) % 256,
       (p.TransmitTimeSec >>> 8) % 256, p.TransmitTimeSec % 256,
       (p.TransmitTimeFrac >>> 24) % 256, (p.TransmitTimeFrac >>> 16) % 256,
       (p.TransmitTimeFrac >>> 8) % 256, p.TransmitTimeFrac % 256] := by
  simp only [Marshal, PutUint32, replicate48, List.set_cons_zero, List.set_cons_succ,
    Nat.reduceAdd]

/-- The error `Marshal` returns is always nil. -/
theorem Marshal_err (p : ntpPacket) : (Marshal p).2 = none := rfl

/-- A buffer of length 48 is the list of its 48 bytes. -/
theorem list48_eq (b : List Nat) (h : b.length = 48) :
    b = [byteAt b 0, byteAt b 1, byteAt b 2, byteAt b 3, byteAt b 4, byteAt b 5, byteAt b 6,
      byteAt b 7, byteAt b 8, byteAt b 9, byteAt b 10, byteAt b 11, byteAt b 12, byteAt b 13,
      byteAt b 14, byteAt b 15, byteAt b 16, byteAt b 17, byteAt b 18, byteAt b 19, byteAt b 20,
      byteAt b 21, byteAt b 22, byteAt b 23, byteAt b 24, byteAt b 25, byteAt b 26, byteAt b 27,
      byteAt b 28, byteAt b 29, byteAt b 30, byteAt b 31, byteAt b 32, byteAt b 33, byteAt b 34,
      byteAt b 35, byteAt b 36, byteAt b 37, byteAt b 38, byteAt b 39, byteAt b 40, byteAt b 41,
      byteAt b 42, byteAt b 43, byteAt b 44, byteAt b 45, byteAt b 46, byteAt b 47] := by
  have e : b = (List.range 48).map (byteAt b) := by
    apply List.ext_getElem
    · simp [h]
    · intro n h1 h2
      simp [byteAt, List.getElem?_eq_getElem h1]
  exact e

/-- The receiver after a successful `Unmarshal`, field by field as the code
assigns it. -/
theorem Unmarshal_of_length (p : ntpPacket) (b : List Nat) (h : b.length = 48) :
    Unmarshal p b =
      (⟨byteAt b 0 >>> 6, (byteAt b 0 >>> 3) &&& 0x07, byteAt b 0 &&& 0x07, byteAt b 1,
        byteAt b 2, int8OfByte (byteAt b 3),
        Uint32 (slice b 4 8), Uint32 (slice b 8 12), Uint32 (slice b 12 16),
        Uint32 (slice b 16 20), Uint32 (slice b 20 24), Uint32 (slice b 24 28),
        Uint32 (slice b 28 32), Uint32 (slice b 32 36), Uint32 (slice b 36 40),
        Uint32 (slice b 40 44), Uint32 (slice b 44 48)⟩, none) := by
  unfold Unmarshal
  rw [if_neg (by simp [h])]

/-- The same with every 32-bit field written as a big-endian value. -/
theorem Unmarshal_decode (p : ntpPacket) (b : List Nat) (hb : IsBytes b) (h : b.length = 48) :
    Unmarshal p b =
      (⟨byteAt b 0 >>> 6, (byteAt b 0 >>> 3) &&& 0x07, byteAt b 0 &&& 0x07, byteAt b 1,
        byteAt b 2, int8OfByte (byteAt b 3),
        bigEndianValue b 4, bigEndianValue b 8, bigEndianValue b 12,
        bigEndianValue b 16, bigEndianValue b 20, bigEndianValue b 24,
        bigEndianValue b 28, bigEndianValue b 32, bigEndianValue b 36,
        bigEndianValue b 40, bigEndianValue b 44⟩, none) := by
  rw [Unmarshal_of_length p b h]
  have h4 : Uint32 (slice b 4 8) = bigEndianValue b 4 := Uint32_slice b hb 4
  have h8 : Uint32 (slice b 8 12) = bigEndianValue b 8 := Uint32_slice b hb 8
  have h12 : Uint32 (slice b 12 16) = bigEndianValue b 12 := Uint32_slice b hb 12
  have h16 : Uint32 (slice b 16 20) = bigEndianValue b 16 := Uint32_slice b hb 16
  have h20 : Uint32 (slice b 20 24) = bigEndianValue b 20 := Uint32_slice b hb 20
  have h24 : Uint32 (slice b 24 28) = bigEndianValue b 24 := Uint32_slice b hb 24
  have h28 : Uint32 (slice b 28 32) = bigEndianValue b 28 := Uint32_slice b hb 28
  have h32 : Uint32 (slice b 32 36) = bigEndianValue b 32 := Uint32_slice b hb 32
  have h36 : Uint32 (slice b 36 40) = bigEndianValue b 36 := Uint32_slice b hb 36
  have h40 : Uint32 (slice b 40 44) = bigEndianValue b 40 := Uint32_slice b hb 40
  have h44 : Uint32 (slice b 44 48) = bigEndianValue b 44 := Uint32_slice b hb 44
  rw [h4, h8, h12, h16, h20, h24, h28, h32, h36, h40, h44]

/-- The four bytes `PutUint32` writes for a big-endian value are the bytes the
value was read from. -/
theorem bigEndianValue_bytes (b : List Nat) (hb : IsBytes b) (k : Nat) :
    (bigEndianValue b k >>> 24) % 256 = byteAt b k ∧
    (bigEndianValue b k >>> 16) % 256 = byteAt b (k + 1) ∧
    (bigEndianValue b k >>> 8) % 256 = byteAt b (k + 2) ∧
    bigEndianValue b k % 256 = byteAt b (k + 3) := by
  have h0 := byteAt_lt hb k
  have h1 := byteAt_lt hb (k + 1)
  have h2 := byteAt_lt hb (k + 2)
  have h3 := byteAt_lt hb (k + 3)
  simp only [bigEndianValue, Nat.shiftRight_eq_div_pow]
  omega

/-- Reading back the four bytes `PutUint32` writes for a `uint32` gives the value. -/
theorem Uint32_PutUint32 (v : Nat) (hv : v < 2 ^ 32) :
    Uint32 [(v >>> 24) % 256, (v >>> 16) % 256, (v >>> 8) % 256, v % 256] = v := by
  have e := or_shift_eq ((v >>> 24) % 256) ((v >>> 16) % 256) ((v >>> 8) % 256) (v % 256)
    (Nat.mod_lt _ (by decide)) (Nat.mod_lt _ (by decide)) (Nat.mod_lt _ (by decide))
    (Nat.mod_lt _ (by decide))
  simp only [Uint32, byteAt, List.getD_cons_zero, List.getD_cons_succ]
  rw [e]
  simp only [Nat.shiftRight_eq_div_pow]
  omega

/-! ## Lemmas about float64 and the timestamp conversion -/

theorem roundHalfEven_intCast (z : ℤ) : roundHalfEven (z : ℚ) = z := by
  simp [roundHalfEven]

theorem f64UlpExp_le (q : ℚ) (k : ℤ) (hq0 : q ≠ 0) (hk : -1074 ≤ k)
    (hlt : |q| < 2 ^ (53 + k)) : f64UlpExp q ≤ k := by
  have hpos : 0 < |q| := abs_pos.mpr hq0
  have h := (Int.lt_zpow_iff_log_lt (b := 2) (by norm_num) hpos).mp (by exact_mod_cast hlt)
  unfold f64UlpExp
  omega

theorem f64Round_exact (m k : ℤ) (hm : |m| < 2 ^ 53) (hk : -1074 ≤ k)
    (hfin : |(m : ℚ) * 2 ^ k| < 2 ^ 1024) :
    f64Round ((m : ℚ) * 2 ^ k) = some ((m : ℚ) * 2 ^ k) := by
  have key : (roundHalfEven ((m : ℚ) * 2 ^ k / 2 ^ f64UlpExp ((m : ℚ) * 2 ^ k)) : ℚ)
      * 2 ^ f64UlpExp ((m : ℚ) * 2 ^ k) = (m : ℚ) * 2 ^ k := by
    rcases eq_or_ne m 0 with rfl | hm0
    · simp [roundHalfEven]
    · have h2 : (2 : ℚ) ^ k ≠ 0 := zpow_ne_zero _ (by norm_num)
      have hq0 : (m : ℚ) * 2 ^ k ≠ 0 := mul_ne_zero (by exact_mod_cast hm0) h2
      have hlt : |(m : ℚ) * 2 ^ k| < 2 ^ (53 + k) := by
        rw [abs_mul, abs_of_pos (zpow_pos (by norm_num : (0 : ℚ) < 2) k), zpow_add₀ (by norm_num)]
        apply mul_lt_mul_of_pos_right _ (zpow_pos (by norm_num) k)
        exact_mod_cast hm
      have he := f64UlpExp_le _ k hq0 hk hlt
      generalize f64UlpExp ((m : ℚ) * 2 ^ k) = e at he ⊢
      obtain ⟨n, hn⟩ := Int.eq_ofNat_of_zero_le (sub_nonneg.mpr he)
      have hk' : k = n + e := by omega
      have hdiv : (m : ℚ) * 2 ^ k / 2 ^ e = ((m * 2 ^ n : ℤ) : ℚ) := by
        have h2e : (2 : ℚ) ^ e ≠ 0 := zpow_ne_zero _ (by norm_num)
        rw [hk', zpow_add₀ (by norm_num), zpow_natCast]
        push_cast
        field_simp
        ring
      rw [hdiv, roundHalfEven_intCast, hk', zpow_add₀ (by norm_num), zpow_natCast]
      push_cast
      ring
  unfold f64Round
  simp only [key]
  rw [if_pos hfin]


theorem f64Round_natCast (n : ℕ) (h : n < 2 ^ 53) : f64Round (n : ℚ) = some (n : ℚ) := by
  have hfin : |((n : ℤ) : ℚ) * 2 ^ (0 : ℤ)| < 2 ^ 1024 := by
    have h1 : (n : ℚ) < 2 ^ 53 := by exact_mod_cast h
    have h0 : (0 : ℚ) ≤ n := Nat.cast_nonneg n
    simp only [zpow_zero, mul_one, Int.cast_natCast, abs_of_nonneg h0]
    calc (n : ℚ) < 2 ^ 53 := h1
      _ < 2 ^ 1024 := by norm_num
  have := f64Round_exact (n : ℤ) 0 (by rw [abs_of_nonneg (by positivity)]; exact_mod_cast h)
    (by norm_num) hfin
  simpa using this

/-- The float64 expression of line 168 is exact: no operation in it rounds. -/
theorem nsecFloat64_eq (f : ℕ) (hf : f < 2 ^ 32) :
    nsecFloat64 f = some ((f : ℚ) * 1000000000 / 4294967296) := by
  have hx : f64Round (f : ℚ) = some (f : ℚ) := f64Round_natCast f (by omega)
  have hs : f64Round (ntpFractionalScale : ℚ) = some 4294967296 := by
    have := f64Round_natCast 4294967296 (by norm_num)
    simpa [ntpFractionalScale] using this
  have hg : f64Round 1000000000 = some 1000000000 := by
    have := f64Round_natCast 1000000000 (by norm_num)
    simpa using this
  have hf0 : (0 : ℚ) ≤ f := Nat.cast_nonneg f
  have hfq : (f : ℚ) < 4294967296 := by exact_mod_cast hf
  have hy : f64Div (f : ℚ) 4294967296 = some ((f : ℚ) / 4294967296) := by
    have h := f64Round_exact (f : ℤ) (-32)
      (by rw [abs_of_nonneg (by positivity)]; exact_mod_cast (by omega : f < 2 ^ 53))
      (by norm_num) (by
        rw [abs_of_nonneg (by positivity)]
        have : ((f : ℤ) : ℚ) * 2 ^ (-32 : ℤ) ≤ 4294967296 := by
          push_cast
          rw [zpow_neg, zpow_ofNat]
          linarith
        linarith [show (4294967296 : ℚ) < 2 ^ 1024 by norm_num])
    have e : ((f : ℤ) : ℚ) * 2 ^ (-32 : ℤ) = (f : ℚ) / 4294967296 := by
      push_cast
      rw [zpow_neg, zpow_ofNat]
      norm_num [div_eq_mul_inv]
    rw [e] at h
    unfold f64Div
    rw [if_neg (by norm_num), h]
  have hz : f64Mul ((f : ℚ) / 4294967296) 1000000000
      = some ((f : ℚ) * 1000000000 / 4294967296) := by
    have hm : f * 1953125 < 2 ^ 53 := by omega
    have h := f64Round_exact ((f * 1953125 : ℕ) : ℤ) (-23)
      (by rw [abs_of_nonneg (by positivity)]; exact_mod_cast hm)
      (by norm_num) (by
        rw [abs_of_nonneg (by positivity)]
        have : (((f * 1953125 : ℕ) : ℤ) : ℚ) * 2 ^ (-23 : ℤ) ≤ 4294967296 * 1953125 := by
          push_cast
          rw [zpow_neg, zpow_ofNat]
          nlinarith
        linarith [show (4294967296 * 1953125 : ℚ) < 2 ^ 1024 by norm_num])
    have e : (((f * 1953125 : ℕ) : ℤ) : ℚ) * 2 ^ (-23 : ℤ)
        = (f : ℚ) / 4294967296 * 1000000000 := by
      push_cast
      rw [zpow_neg, zpow_ofNat]
      ring
    rw [e] at h
    unfold f64Mul
    rw [h]
    congr 1
    ring
  simp only [nsecFloat64, hx, hs, hy, hg, hz, Option.bind_eq_bind, Option.some_bind]

/-- Truncation of the exact quotient: the natural-number quotient. -/
theorem int64OfFloat64_quot (f : ℕ) (hf : f < 2 ^ 32) :
    int64OfFloat64 ((f : ℚ) * 1000000000 / 4294967296)
      = some ((f * 1000000000 / 4294967296 : ℕ) : ℤ) := by
  have e : (f : ℚ) * 1000000000 / 4294967296
      = ((f * 1000000000 : ℕ) : ℚ) / ((4294967296 : ℕ) : ℚ) := by
    push_cast
    ring
  have hnn : (0 : ℚ) ≤ ((f * 1000000000 : ℕ) : ℚ) / ((4294967296 : ℕ) : ℚ) := by positivity
  rw [e]
  unfold int64OfFloat64
  simp only [if_pos hnn, Rat.floor_natCast_div_natCast]
  rw [if_pos]
  · norm_cast
  · constructor <;> omega

/-- A nanosecond count already in `[0, 999999999]` is kept by `time.Unix`. -/
theorem Unix_of_lt (sec nsec : Int) (h0 : 0 ≤ nsec) (h1 : nsec < 1000000000) :
    Unix sec nsec = ⟨sec, nsec⟩ := by
  unfold Unix
  rw [if_neg (by omega)]

/-- The subtraction of line 166 does not leave `int64`. -/
theorem wrapInt64_of_mem (x : Int) (h0 : -2 ^ 63 ≤ x) (h1 : x < 2 ^ 63) : wrapInt64 x = x := by
  unfold wrapInt64
  omega

/-- The result of `ntpTimestampToTime` on every pair of `uint32` arguments. -/
theorem ntpTimestampToTime_eq (s f : ℕ) (hs : s < 2 ^ 32) (hf : f < 2 ^ 32) :
    ntpTimestampToTime s f
      = some ⟨(s : ℤ) - 2208988800, ((f * 1000000000 / 4294967296 : ℕ) : ℤ)⟩ := by
  have hw : wrapInt64 ((s : ℤ) - ntpEpochOffset) = (s : ℤ) - 2208988800 := by
    unfold ntpEpochOffset
    exact wrapInt64_of_mem _ (by omega) (by omega)
  have hu := Unix_of_lt ((s : ℤ) - 2208988800) ((f * 1000000000 / 4294967296 : ℕ) : ℤ)
    (by positivity) (by omega)
  simp only [ntpTimestampToTime, nsecFloat64_eq f hf, int64OfFloat64_quot f hf, hw, hu,
    Option.bind_eq_bind, Option.some_bind, Option.pure_def]

/-! ## Claims about the codec -/

/-- C1: for every packet whose fields lie in their Go types and whose LI is at
most 3, VN at most 7 and Mode at most 7, `Unmarshal` (on any receiver) of the
bytes returned by `Marshal` succeeds and leaves the receiver equal to the packet
in every field. -/
theorem unmarshal_marshal_roundtrip (p q : ntpPacket) (hty : p.InGoTypes)
    (hLI : p.LI ≤ 3) (hVN : p.VN ≤ 7) (hMode : p.Mode ≤ 7) :
    Unmarshal q (Marshal p).1 = (p, none) := by
  have hlen : (Marshal p).1.length = 48 := by rw [Marshal_bytes]; rfl
  rw [Unmarshal_of_length q _ hlen, Marshal_bytes]
  obtain ⟨LI, VN, Mode, Stratum, Poll, Prec, f1, f2, f3, f4, f5, f6, f7, f8, f9, f10, f11⟩ := p
  obtain ⟨-, -, -, -, -, ⟨hp1, hp2⟩, g1, g2, g3, g4, g5, g6, g7, g8, g9, g10, g11⟩ := hty
  simp only at hLI hVN hMode hp1 hp2 g1 g2 g3 g4 g5 g6 g7 g8 g9 g10 g11
  obtain ⟨e1, e2, e3, -⟩ := firstByte_encode_decode LI (by omega) VN (by omega) Mode (by omega)
  simp only [slice, byteAt, List.drop_succ_cons, List.drop_zero, List.take_succ_cons,
    List.take_zero, List.getD_cons_zero, List.getD_cons_succ, Nat.reduceSub,
    Uint32_PutUint32 _ g1, Uint32_PutUint32 _ g2, Uint32_PutUint32 _ g3, Uint32_PutUint32 _ g4,
    Uint32_PutUint32 _ g5, Uint32_PutUint32 _ g6, Uint32_PutUint32 _ g7, Uint32_PutUint32 _ g8,
    Uint32_PutUint32 _ g9, Uint32_PutUint32 _ g10, Uint32_PutUint32 _ g11,
    int8OfByte_byteOfInt8 Prec hp1 hp2, e1, e2, e3]

/-- Witness of C1 at `samplePacket`, decoded into the zero packet. -/
theorem unmarshal_marshal_roundtrip_witness :
    samplePacket.InGoTypes ∧ samplePacket.LI ≤ 3 ∧ samplePacket.VN ≤ 7 ∧
      samplePacket.Mode ≤ 7 ∧
      Unmarshal ntpPacket.zero (Marshal samplePacket).1 = (samplePacket, none) :=
  ⟨by decide, by decide, by decide, by decide,
    unmarshal_marshal_roundtrip samplePacket ntpPacket.zero (by decide) (by decide) (by decide)
      (by decide)⟩


/-- C2: for every buffer of exactly 48 bytes, `Unmarshal` succeeds and `Marshal`
of the resulting packet returns, with a nil error, a buffer equal to the input
byte for byte. -/
theorem marshal_unmarshal_roundtrip (p : ntpPacket) (b : List Nat) (hb : IsBytes b)
    (hlen : b.length = 48) :
    (Unmarshal p b).2 = none ∧ Marshal (Unmarshal p b).1 = (b, none) := by
  refine ⟨by rw [Unmarshal_of_length p b hlen], ?_⟩
  rw [Prod.ext_iff, Marshal_err]
  refine ⟨?_, rfl⟩
  show (Marshal (Unmarshal p b).1).1 = b
  rw [Marshal_bytes, Unmarshal_decode p b hb hlen]
  have h0 := firstByte_decode_encode (byteAt b 0) (byteAt_lt hb 0)
  have h3 := byteOfInt8_int8OfByte (byteAt b 3) (byteAt_lt hb 3)
  obtain ⟨a4, b4, c4, d4⟩ := bigEndianValue_bytes b hb 4
  obtain ⟨a8, b8, c8, d8⟩ := bigEndianValue_bytes b hb 8
  obtain ⟨a12, b12, c12, d12⟩ := bigEndianValue_bytes b hb 12
  obtain ⟨a16, b16, c16, d16⟩ := bigEndianValue_bytes b hb 16
  obtain ⟨a20, b20, c20, d20⟩ := bigEndianValue_bytes b hb 20
  obtain ⟨a24, b24, c24, d24⟩ := bigEndianValue_bytes b hb 24
  obtain ⟨a28, b28, c28, d28⟩ := bigEndianValue_bytes b hb 28
  obtain ⟨a32, b32, c32, d32⟩ := bigEndianValue_bytes b hb 32
  obtain ⟨a36, b36, c36, d36⟩ := bigEndianValue_bytes b hb 36
  obtain ⟨a40, b40, c40, d40⟩ := bigEndianValue_bytes b hb 40
  obtain ⟨a44, b44, c44, d44⟩ := bigEndianValue_bytes b hb 44
  simp only [h0, h3, a4, b4, c4, d4, a8, b8, c8, d8, a12, b12, c12, d12, a16, b16, c16, d16,
    a20, b20, c20, d20, a24, b24, c24, d24, a28, b28, c28, d28, a32, b32, c32, d32,
    a36, b36, c36, d36, a40, b40, c40, d40, a44, b44, c44, d44, Nat.reduceAdd]
  rw [← list48_eq b hlen]

/-- Witness of C2 at `sampleBuffer`, decoded into the zero packet. -/
theorem marshal_unmarshal_roundtrip_witness :
    IsBytes sampleBuffer ∧ sampleBuffer.length = 48 ∧
      (Unmarshal ntpPacket.zero sampleBuffer).2 = none ∧
      Marshal (Unmarshal ntpPacket.zero sampleBuffer).1 = (sampleBuffer, none) :=
  ⟨by decide, by decide,
    marshal_unmarshal_roundtrip ntpPacket.zero sampleBuffer (by decide) (by decide)⟩

/-- C3: `Unmarshal` returns an error exactly when the length of the buffer is not
48; the error text is then "invalid NTP packet size: " followed by the decimal
length (shown at lengths 0, 47, 49 and 1000); a buffer of length 48 is accepted
whatever its contents. -/
theorem unmarshal_error_iff_length (p : ntpPacket) (data : List Nat) :
    ((Unmarshal p data).2 ≠ none ↔ data.length ≠ 48) ∧
    (data.length ≠ 48 →
      (Unmarshal p data).2 = some ("invalid NTP packet size: " ++ toString data.length)) ∧
    (data.length = 48 → (Unmarshal p data).2 = none) ∧
    (Unmarshal p []).2 = some "invalid NTP packet size: 0" ∧
    (Unmarshal p (List.replicate 47 0)).2 = some "invalid NTP packet size: 47" ∧
    (Unmarshal p (List.replicate 49 255)).2 = some "invalid NTP packet size: 49" ∧
    (Unmarshal p (List.replicate 1000 7)).2 = some "invalid NTP packet size: 1000" := by
  have hne : data.length ≠ 48 →
      (Unmarshal p data).2 = some ("invalid NTP packet size: " ++ toString data.length) := by
    intro h
    unfold Unmarshal
    rw [if_pos h]
  have heq : data.length = 48 → (Unmarshal p data).2 = none := by
    intro h
    rw [Unmarshal_of_length p data h]
  have hmsg : ∀ (n : Nat) (x : Nat) (s : String), n ≠ 48 →
      "invalid NTP packet size: " ++ toString n = s →
      (Unmarshal p (List.replicate n x)).2 = some s := by
    intro n x s h1 h2
    unfold Unmarshal
    rw [if_pos (by simpa using h1), List.length_replicate, h2]
  refine ⟨?_, hne, heq, hmsg 0 0 _ (by decide) (by decide), hmsg 47 0 _ (by decide) (by decide),
    hmsg 49 255 _ (by decide) (by decide), hmsg 1000 7 _ (by decide) (by decide)⟩
  by_cases h : data.length = 48
  · simp [heq h, h]
  · simp [hne h, h]

/-- C4: for every packet value, the fields LI, VN and Mode unconstrained,
`Marshal` returns a nil error and a buffer of exactly 48 elements. -/
theorem marshal_total (p : ntpPacket) :
    (Marshal p).2 = none ∧ (Marshal p).1.length = 48 := by
  refine ⟨Marshal_err p, ?_⟩
  rw [Marshal_bytes]
  rfl

/-- Each element of the buffer `Marshal` returns is a byte when the fields of
the packet lie in their Go types. -/
theorem marshal_isBytes (p : ntpPacket) (hty : p.InGoTypes) : IsBytes (Marshal p).1 := by
  obtain ⟨h1, h2, h3, h4, h5, ⟨hp1, hp2⟩, -⟩ := hty
  have hprec : byteOfInt8 p.Prec < 256 := by unfold byteOfInt8; omega
  have hor : (p.LI <<< 6) % 256 ||| (p.VN <<< 3) % 256 ||| p.Mode < 2 ^ 8 :=
    Nat.or_lt_two_pow (Nat.or_lt_two_pow (Nat.mod_lt _ (by decide)) (Nat.mod_lt _ (by decide)))
      h3
  rw [Marshal_bytes]
  intro x hx
  simp only [List.mem_cons, List.mem_singleton, List.not_mem_nil, or_false] at hx
  rcases hx with h | h | h | h | h | h | h | h | h | h | h | h | h | h | h | h | h | h | h | h |
    h | h | h | h | h | h | h | h | h | h | h | h | h | h | h | h | h | h | h | h | h | h | h | h |
    h | h | h | h <;> subst h <;> first | exact hor | omega

/-- C5, amended: for LI at most 3, VN at most 7 and Mode at most 7 the first byte
of the output of `Marshal` is LI * 64 + VN * 8 + Mode; for every 48-byte buffer
`Unmarshal` yields LI = x / 64, VN = (x / 8) mod 8 and Mode = x mod 8, where x is
the first byte; LI = 3, VN = 4, Mode = 3 is encoded as 0xE3 and 0xE3 is decoded
as LI = 3, VN = 4, Mode = 3, while 0xDB is decoded as LI = 3, VN = 3, Mode = 3. -/
theorem first_byte_packing :
    (∀ p : ntpPacket, p.LI ≤ 3 → p.VN ≤ 7 → p.Mode ≤ 7 →
      byteAt (Marshal p).1 0 = p.LI * 64 + p.VN * 8 + p.Mode) ∧
    (∀ (q : ntpPacket) (b : List Nat), IsBytes b → b.length = 48 →
      (Unmarshal q b).1.LI = byteAt b 0 / 64 ∧
      (Unmarshal q b).1.VN = (byteAt b 0 / 8) % 8 ∧
      (Unmarshal q b).1.Mode = byteAt b 0 % 8) ∧
    (∀ p : ntpPacket, p.LI = 3 → p.VN = 4 → p.Mode = 3 → byteAt (Marshal p).1 0 = 0xE3) ∧
    (∀ (q : ntpPacket) (b : List Nat), IsBytes b → b.length = 48 → byteAt b 0 = 0xE3 →
      (Unmarshal q b).1.LI = 3 ∧ (Unmarshal q b).1.VN = 4 ∧ (Unmarshal q b).1.Mode = 3) ∧
    (∀ (q : ntpPacket) (b : List Nat), IsBytes b → b.length = 48 → byteAt b 0 = 0xDB →
      (Unmarshal q b).1.LI = 3 ∧ (Unmarshal q b).1.VN = 3 ∧ (Unmarshal q b).1.Mode = 3) := by
  have henc : ∀ p : ntpPacket, p.LI ≤ 3 → p.VN ≤ 7 → p.Mode ≤ 7 →
      byteAt (Marshal p).1 0 = p.LI * 64 + p.VN * 8 + p.Mode := by
    intro p h1 h2 h3
    rw [Marshal_bytes]
    exact (firstByte_encode_decode p.LI (by omega) p.VN (by omega) p.Mode (by omega)).2.2.2
  have hdec : ∀ (q : ntpPacket) (b : List Nat), IsBytes b → b.length = 48 →
      (Unmarshal q b).1.LI = byteAt b 0 / 64 ∧
      (Unmarshal q b).1.VN = (byteAt b 0 / 8) % 8 ∧
      (Unmarshal q b).1.Mode = byteAt b 0 % 8 := by
    intro q b hb hlen
    rw [Unmarshal_of_length q b hlen]
    exact firstByte_fields (byteAt b 0) (byteAt_lt hb 0)
  refine ⟨henc, hdec, ?_, ?_, ?_⟩
  · intro p h1 h2 h3
    rw [henc p (by omega) (by omega) (by omega), h1, h2, h3]
  · intro q b hb hlen hx
    have h := hdec q b hb hlen
    rw [hx] at h
    norm_num at h
    exact h
  · intro q b hb hlen hx
    have h := hdec q b hb hlen
    rw [hx] at h
    norm_num at h
    exact h

/-- Witness of C5 at `samplePacket` and `sampleBuffer`, whose first byte is 0xE3. -/
theorem first_byte_packing_witness :
    byteAt (Marshal samplePacket).1 0 = 0xE3 ∧
      (Unmarshal ntpPacket.zero sampleBuffer).1.LI = 3 ∧
      (Unmarshal ntpPacket.zero sampleBuffer).1.VN = 4 ∧
      (Unmarshal ntpPacket.zero sampleBuffer).1.Mode = 3 :=
  ⟨first_byte_packing.2.2.1 samplePacket (by decide) (by decide) (by decide),
    first_byte_packing.2.2.2.1 ntpPacket.zero sampleBuffer (by decide) (by decide) (by decide)⟩

/-- Counterexample to C5 as stated: the packet `samplePacket` has LI = 3, VN = 4
and Mode = 3 and its first byte is 0xE3, not 0xDB; the buffer `bufferDB` starts
with 0xDB and is decoded with VN = 3, not 4. -/
theorem first_byte_0xDB_refuted :
    (samplePacket.LI = 3 ∧ samplePacket.VN = 4 ∧ samplePacket.Mode = 3 ∧
      byteAt (Marshal samplePacket).1 0 = 0xE3 ∧ byteAt (Marshal samplePacket).1 0 ≠ 0xDB) ∧
    (IsBytes bufferDB ∧ bufferDB.length = 48 ∧ byteAt bufferDB 0 = 0xDB ∧
      (Unmarshal ntpPacket.zero bufferDB).1.VN = 3 ∧
      (Unmarshal ntpPacket.zero bufferDB).1.VN ≠ 4) := by
  have hlen : bufferDB.length = 48 := by decide
  refine ⟨⟨rfl, rfl, rfl, ?_, ?_⟩, by decide, hlen, rfl, ?_, ?_⟩
  · rw [Marshal_bytes]; decide
  · rw [Marshal_bytes]; decide
  · rw [Unmarshal_of_length _ _ hlen]; decide
  · rw [Unmarshal_of_length _ _ hlen]; decide

/-- C6: for every 48-byte buffer, `Unmarshal` sets Stratum to byte 1, Poll to
byte 2, Prec to byte 3 read as a signed 8-bit value in twos complement, and each
32-bit field to the big-endian value of its four bytes, at offsets 4, 8, 12, 16,
20, 24, 28, 32, 36, 40 and 44 in the order of the struct. -/
theorem unmarshal_fields (p : ntpPacket) (b : List Nat) (hb : IsBytes b)
    (hlen : b.length = 48) :
    (Unmarshal p b).1.Stratum = byteAt b 1 ∧
    (Unmarshal p b).1.Poll = byteAt b 2 ∧
    (Unmarshal p b).1.Prec
      = (if byteAt b 3 < 128 then (byteAt b 3 : Int) else (byteAt b 3 : Int) - 256) ∧
    (Unmarshal p b).1.RootDelay = bigEndianValue b 4 ∧
    (Unmarshal p b).1.RootDispersion = bigEndianValue b 8 ∧
    (Unmarshal p b).1.ReferenceID = bigEndianValue b 12 ∧
    (Unmarshal p b).1.ReferenceTimeSec = bigEndianValue b 16 ∧
    (Unmarshal p b).1.ReferenceTimeFrac = bigEndianValue b 20 ∧
    (Unmarshal p b).1.OriginateTimeSec = bigEndianValue b 24 ∧
    (Unmarshal p b).1.OriginateTimeFrac = bigEndianValue b 28 ∧
    (Unmarshal p b).1.ReceiveTimeSec = bigEndianValue b 32 ∧
    (Unmarshal p b).1.ReceiveTimeFrac = bigEndianValue b 36 ∧
    (Unmarshal p b).1.TransmitTimeSec = bigEndianValue b 40 ∧
    (Unmarshal p b).1.TransmitTimeFrac = bigEndianValue b 44 := by
  have h3 : byteAt b 3 % 256 = byteAt b 3 := Nat.mod_eq_of_lt (byteAt_lt hb 3)
  rw [Unmarshal_decode p b hb hlen]
  simp only [int8OfByte, h3, and_self]

/-- Witness of C6 at `sampleBuffer`, decoded into the zero packet. -/
theorem unmarshal_fields_witness :
    IsBytes sampleBuffer ∧ sampleBuffer.length = 48 ∧
      (Unmarshal ntpPacket.zero sampleBuffer).1.Stratum = byteAt sampleBuffer 1 ∧
      (Unmarshal ntpPacket.zero sampleBuffer).1.Poll = byteAt sampleBuffer 2 ∧
      (Unmarshal ntpPacket.zero sampleBuffer).1.Prec
        = (if byteAt sampleBuffer 3 < 128 then (byteAt sampleBuffer 3 : Int)
            else (byteAt sampleBuffer 3 : Int) - 256) ∧
      (Unmarshal ntpPacket.zero sampleBuffer).1.RootDelay = bigEndianValue sampleBuffer 4 ∧
      (Unmarshal ntpPacket.zero sampleBuffer).1.RootDispersion = bigEndianValue sampleBuffer 8 ∧
      (Unmarshal ntpPacket.zero sampleBuffer).1.ReferenceID = bigEndianValue sampleBuffer 12 ∧
      (Unmarshal ntpPacket.zero sampleBuffer).1.ReferenceTimeSec = bigEndianValue sampleBuffer 16 ∧
      (Unmarshal ntpPacket.zero sampleBuffer).1.ReferenceTimeFrac = bigEndianValue sampleBuffer 20 ∧
      (Unmarshal ntpPacket.zero sampleBuffer).1.OriginateTimeSec = bigEndianValue sampleBuffer 24 ∧
      (Unmarshal ntpPacket.zero sampleBuffer).1.OriginateTimeFrac = bigEndianValue sampleBuffer 28 ∧
      (Unmarshal ntpPacket.zero sampleBuffer).1.ReceiveTimeSec = bigEndianValue sampleBuffer 32 ∧
      (Unmarshal ntpPacket.zero sampleBuffer).1.ReceiveTimeFrac = bigEndianValue sampleBuffer 36 ∧
      (Unmarshal ntpPacket.zero sampleBuffer).1.TransmitTimeSec = bigEndianValue sampleBuffer 40 ∧
      (Unmarshal ntpPacket.zero sampleBuffer).1.TransmitTimeFrac = bigEndianValue sampleBuffer 44 :=
  ⟨by decide, by decide, unmarshal_fields ntpPacket.zero sampleBuffer (by decide) (by decide)⟩

/-! ## Claims about the timestamp conversion -/

/-- C7: for all `uint32` seconds and fractions, `ntpTimestampToTime` returns an
instant whose whole seconds are exactly seconds − 2208988800, a value of `int64`;
the nanoseconds never carry into the seconds. `ntpTimestampToTime(2208988800, 0)`
is the calendar epoch, seconds 0 and nanoseconds 0. -/
theorem timestamp_seconds_exact (seconds fractions : Nat) (hs : seconds < 2 ^ 32)
    (hf : fractions < 2 ^ 32) :
    (∃ t : Time, ntpTimestampToTime seconds fractions = some t ∧
      t.sec = (seconds : Int) - 2208988800 ∧ -2 ^ 63 ≤ t.sec ∧ t.sec < 2 ^ 63) ∧
    ntpTimestampToTime 2208988800 0 = some ⟨0, 0⟩ := by
  refine ⟨⟨_, ntpTimestampToTime_eq seconds fractions hs hf, rfl, ?_, ?_⟩, ?_⟩
  · show -2 ^ 63 ≤ (seconds : Int) - 2208988800
    omega
  · show (seconds : Int) - 2208988800 < 2 ^ 63
    omega
  · rw [ntpTimestampToTime_eq 2208988800 0 (by norm_num) (by norm_num)]
    norm_num

/-- Witness of C7 at the largest `uint32` seconds and fractions. -/
theorem timestamp_seconds_exact_witness :
    (∃ t : Time, ntpTimestampToTime 4294967295 4294967295 = some t ∧
      t.sec = ((4294967295 : Nat) : Int) - 2208988800 ∧ -2 ^ 63 ≤ t.sec ∧ t.sec < 2 ^ 63) ∧
    ntpTimestampToTime 2208988800 0 = some ⟨0, 0⟩ :=
  timestamp_seconds_exact 4294967295 4294967295 (by decide) (by decide)

/-- C8: for every `uint32` fraction, the float64 expression of
`ntpTimestampToTime` equals fraction * 10^9 / 2^32 without any rounding, the
nanoseconds are its floor, they lie in [0, 999999999], and they are the
nanoseconds of the returned instant; fraction 2147483648 gives 500000000. -/
theorem nanoseconds_exact (fractions : Nat) (hf : fractions < 2 ^ 32) :
    nsecFloat64 fractions = some ((fractions : ℚ) * 10 ^ 9 / 2 ^ 32) ∧
    (nsecFloat64 fractions).bind int64OfFloat64
      = some ((fractions * 10 ^ 9 / 2 ^ 32 : Nat) : Int) ∧
    ((fractions * 10 ^ 9 / 2 ^ 32 : Nat) : Int) = ⌊(fractions : ℚ) * 10 ^ 9 / 2 ^ 32⌋ ∧
    fractions * 10 ^ 9 / 2 ^ 32 ≤ 999999999 ∧
    (∀ seconds : Nat, seconds < 2 ^ 32 →
      ∃ t : Time, ntpTimestampToTime seconds fractions = some t ∧
        t.nsec = ((fractions * 10 ^ 9 / 2 ^ 32 : Nat) : Int)) ∧
    ntpTimestampToTime 2208988800 2147483648 = some ⟨0, 500000000⟩ := by
  have e1 : (fractions : ℚ) * 10 ^ 9 / 2 ^ 32 = (fractions : ℚ) * 1000000000 / 4294967296 := by
    norm_num
  have e2 : fractions * 10 ^ 9 / 2 ^ 32 = fractions * 1000000000 / 4294967296 := by
    norm_num
  have hfl : ((fractions * 1000000000 / 4294967296 : Nat) : Int)
      = ⌊(fractions : ℚ) * 1000000000 / 4294967296⌋ := by
    have e : (fractions : ℚ) * 1000000000 / 4294967296
        = ((fractions * 1000000000 : ℕ) : ℚ) / ((4294967296 : ℕ) : ℚ) := by
      push_cast
      ring
    rw [e, Rat.floor_natCast_div_natCast]
    norm_cast
  rw [e1, e2]
  refine ⟨nsecFloat64_eq fractions hf, ?_, hfl, by omega, ?_, ?_⟩
  · rw [nsecFloat64_eq fractions hf, Option.some_bind, int64OfFloat64_quot fractions hf]
  · intro seconds hs
    exact ⟨_, ntpTimestampToTime_eq seconds fractions hs hf, rfl⟩
  · rw [ntpTimestampToTime_eq 2208988800 2147483648 (by norm_num) (by norm_num)]
    norm_num

/-- Witness of C8 at fraction 2147483648, one half. -/
theorem nanoseconds_exact_witness :
    nsecFloat64 2147483648 = some (((2147483648 : Nat) : ℚ) * 10 ^ 9 / 2 ^ 32) ∧
    (nsecFloat64 2147483648).bind int64OfFloat64
      = some ((2147483648 * 10 ^ 9 / 2 ^ 32 : Nat) : Int) ∧
    ((2147483648 * 10 ^ 9 / 2 ^ 32 : Nat) : Int) = ⌊((2147483648 : Nat) : ℚ) * 10 ^ 9 / 2 ^ 32⌋ ∧
    2147483648 * 10 ^ 9 / 2 ^ 32 ≤ 999999999 ∧
    (∀ seconds : Nat, seconds < 2 ^ 32 →
      ∃ t : Time, ntpTimestampToTime seconds 2147483648 = some t ∧
        t.nsec = ((2147483648 * 10 ^ 9 / 2 ^ 32 : Nat) : Int)) ∧
    ntpTimestampToTime 2208988800 2147483648 = some ⟨0, 500000000⟩ :=
  nanoseconds_exact 2147483648 (by decide)

/-- C9: for seconds below 2208988800 and every `uint32` fraction,
`ntpTimestampToTime` returns an instant (nothing is rejected) whose whole seconds
are negative and equal to seconds − 2208988800; `ntpTimestampToTime(0, 0)` lies
2208988800 seconds before the calendar epoch, with nanoseconds 0. -/
theorem pre_epoch_timestamp (seconds fractions : Nat) (hs : seconds < 2208988800)
    (hf : fractions < 2 ^ 32) :
    (∃ t : Time, ntpTimestampToTime seconds fractions = some t ∧ t.sec < 0 ∧
      t.sec = (seconds : Int) - 2208988800) ∧
    ntpTimestampToTime 0 0 = some ⟨-2208988800, 0⟩ := by
  refine ⟨⟨_, ntpTimestampToTime_eq seconds fractions (by omega) hf, ?_, rfl⟩, ?_⟩
  · show (seconds : Int) - 2208988800 < 0
    omega
  · rw [ntpTimestampToTime_eq 0 0 (by norm_num) (by norm_num)]
    norm_num

/-- Witness of C9 one second before the calendar epoch. -/
theorem pre_epoch_timestamp_witness :
    (∃ t : Time, ntpTimestampToTime 2208988799 4294967295 = some t ∧ t.sec < 0 ∧
      t.sec = ((2208988799 : Nat) : Int) - 2208988800) ∧
    ntpTimestampToTime 0 0 = some ⟨-2208988800, 0⟩ :=
  pre_epoch_timestamp 2208988799 4294967295 (by decide) (by decide)

/-- C10: for every Unix time u, the packet built by `createNTPPacket` has
TransmitTimeSec = (u + 2208988800) mod 2^32 and TransmitTimeFrac = 0; at
u = 2^32 − 2208988800 the seconds have wrapped to 0. -/
theorem request_transmit_timestamp (u : Int) :
    ((createNTPPacket u).TransmitTimeSec : Int) = (u + 2208988800) % 2 ^ 32 ∧
    (createNTPPacket u).TransmitTimeFrac = 0 ∧
    (createNTPPacket (2 ^ 32 - 2208988800)).TransmitTimeSec = 0 := by
  refine ⟨?_, rfl, ?_⟩
  · show ((uint32OfInt64 (wrapInt64 (u + 2208988800)) : Nat) : Int) = (u + 2208988800) % 2 ^ 32
    unfold uint32OfInt64 wrapInt64
    omega
  · show uint32OfInt64 (wrapInt64 (2 ^ 32 - 2208988800 + 2208988800)) = 0
    unfold uint32OfInt64 wrapInt64
    norm_num

/-! ## Further lemmas -/

/-- A big-endian value of four bytes is a `uint32`. -/
theorem bigEndianValue_lt (b : List Nat) (hb : IsBytes b) (k : Nat) :
    bigEndianValue b k < 2 ^ 32 := by
  have h0 := byteAt_lt hb k
  have h1 := byteAt_lt hb (k + 1)
  have h2 := byteAt_lt hb (k + 2)
  have h3 := byteAt_lt hb (k + 3)
  unfold bigEndianValue
  omega

/-- The float64 expression of lines 90 and 91 is exact: no operation in it rounds. -/
theorem fixedPointMillis_eq (v : ℕ) (hv : v < 2 ^ 32) :
    fixedPointMillis v = some ((v : ℚ) * 1000 / 65536) := by
  have hx : f64Round (v : ℚ) = some (v : ℚ) := f64Round_natCast v (by omega)
  have hs : f64Round (((1 <<< 16 : ℕ) : ℚ)) = some 65536 := by
    have := f64Round_natCast 65536 (by norm_num)
    simpa using this
  have hg : f64Round 1000 = some 1000 := by
    have := f64Round_natCast 1000 (by norm_num)
    simpa using this
  have hv0 : (0 : ℚ) ≤ v := Nat.cast_nonneg v
  have hvq : (v : ℚ) < 4294967296 := by exact_mod_cast hv
  have hy : f64Div (v : ℚ) 65536 = some ((v : ℚ) / 65536) := by
    have h := f64Round_exact (v : ℤ) (-16)
      (by rw [abs_of_nonneg (by positivity)]; exact_mod_cast (by omega : v < 2 ^ 53))
      (by norm_num) (by
        rw [abs_of_nonneg (by positivity)]
        have : ((v : ℤ) : ℚ) * 2 ^ (-16 : ℤ) ≤ 4294967296 := by
          push_cast
          rw [zpow_neg, zpow_ofNat]
          linarith
        linarith [show (4294967296 : ℚ) < 2 ^ 1024 by norm_num])
    have e : ((v : ℤ) : ℚ) * 2 ^ (-16 : ℤ) = (v : ℚ) / 65536 := by
      push_cast
      rw [zpow_neg, zpow_ofNat]
      norm_num [div_eq_mul_inv]
    rw [e] at h
    unfold f64Div
    rw [if_neg (by norm_num), h]
  have hz : f64Mul ((v : ℚ) / 65536) 1000 = some ((v : ℚ) * 1000 / 65536) := by
    have hm : v * 125 < 2 ^ 53 := by omega
    have h := f64Round_exact ((v * 125 : ℕ) : ℤ) (-13)
      (by rw [abs_of_nonneg (by positivity)]; exact_mod_cast hm)
      (by norm_num) (by
        rw [abs_of_nonneg (by positivity)]
        have : (((v * 125 : ℕ) : ℤ) : ℚ) * 2 ^ (-13 : ℤ) ≤ 4294967296 * 125 := by
          push_cast
          rw [zpow_neg, zpow_ofNat]
          nlinarith
        linarith [show (4294967296 * 125 : ℚ) < 2 ^ 1024 by norm_num])
    have e : (((v * 125 : ℕ) : ℤ) : ℚ) * 2 ^ (-13 : ℤ) = (v : ℚ) / 65536 * 1000 := by
      push_cast
      rw [zpow_neg, zpow_ofNat]
      ring
    rw [e] at h
    unfold f64Mul
    rw [h]
    congr 1
    ring
  simp only [fixedPointMillis, hx, hs, hy, hg, hz, Option.bind_eq_bind, Option.some_bind]

/-- The first byte `Marshal` writes is a byte when Mode is a `uint8`. -/
theorem firstByte_lt (l v m : Nat) (hm : m < 256) :
    (l <<< 6) % 256 ||| (v <<< 3) % 256 ||| m < 256 :=
  Nat.or_lt_two_pow (n := 8)
    (Nat.or_lt_two_pow (n := 8) (Nat.mod_lt _ (by decide)) (Nat.mod_lt _ (by decide))) hm

/-- Decoding what `Marshal` wrote: every field but LI, VN and Mode is the field of
the packet, and those three are re-read from the first byte. -/
theorem Unmarshal_Marshal (p q : ntpPacket) (hty : p.InGoTypes) :
    Unmarshal q (Marshal p).1 =
      ({ p with
          LI := ((p.LI <<< 6) % 256 ||| (p.VN <<< 3) % 256 ||| p.Mode) >>> 6
          VN := (((p.LI <<< 6) % 256 ||| (p.VN <<< 3) % 256 ||| p.Mode) >>> 3) &&& 0x07
          Mode := ((p.LI <<< 6) % 256 ||| (p.VN <<< 3) % 256 ||| p.Mode) &&& 0x07 }, none) := by
  have hlen : (Marshal p).1.length = 48 := by rw [Marshal_bytes]; rfl
  rw [Unmarshal_of_length q _ hlen, Marshal_bytes]
  obtain ⟨LI, VN, Mode, Stratum, Poll, Prec, f1, f2, f3, f4, f5, f6, f7, f8, f9, f10, f11⟩ := p
  obtain ⟨-, -, -, -, -, ⟨hp1, hp2⟩, g1, g2, g3, g4, g5, g6, g7, g8, g9, g10, g11⟩ := hty
  simp only at hp1 hp2 g1 g2 g3 g4 g5 g6 g7 g8 g9 g10 g11
  simp only [slice, byteAt, List.drop_succ_cons, List.drop_zero, List.take_succ_cons,
    List.take_zero, List.getD_cons_zero, List.getD_cons_succ, Nat.reduceSub,
    Uint32_PutUint32 _ g1, Uint32_PutUint32 _ g2, Uint32_PutUint32 _ g3, Uint32_PutUint32 _ g4,
    Uint32_PutUint32 _ g5, Uint32_PutUint32 _ g6, Uint32_PutUint32 _ g7, Uint32_PutUint32 _ g8,
    Uint32_PutUint32 _ g9, Uint32_PutUint32 _ g10, Uint32_PutUint32 _ g11,
    int8OfByte_byteOfInt8 Prec hp1 hp2]

/-- The three fields read from a first byte are within two, three and three bits. -/
theorem firstByte_fields_le (x : Nat) (hx : x < 256) :
    x >>> 6 ≤ 3 ∧ (x >>> 3) &&& 0x07 ≤ 7 ∧ x &&& 0x07 ≤ 7 := by
  obtain ⟨h1, h2, h3⟩ := firstByte_fields x hx
  rw [h1, h2, h3]
  omega

/-- The transmit seconds of the request, as an integer. -/
theorem createNTPPacket_sec (u : Int) :
    ((createNTPPacket u).TransmitTimeSec : Int) = (u + 2208988800) % 2 ^ 32 := by
  show ((uint32OfInt64 (wrapInt64 (u + 2208988800)) : Nat) : Int) = (u + 2208988800) % 2 ^ 32
  unfold uint32OfInt64 wrapInt64
  omega

/-- The transmit seconds of the request are a `uint32`. -/
theorem createNTPPacket_sec_lt (u : Int) : (createNTPPacket u).TransmitTimeSec < 2 ^ 32 := by
  have h := createNTPPacket_sec u
  omega

/-! ## Claims about the request, the report and the receiver -/

/-- C11: for every Unix time u, `Marshal` of the packet built by `createNTPPacket`
returns, with a nil error, a 48-byte buffer: byte 0 is 0x23, bytes 1 and 2 are 0,
byte 3 is 0xFA, bytes 4 to 39 are 0, bytes 40 to 43 are the big-endian encoding
of (u + 2208988800) mod 2^32, and bytes 44 to 47 are 0. -/
theorem request_bytes (u : Int) :
    (Marshal (createNTPPacket u)).2 = none ∧
    (Marshal (createNTPPacket u)).1.length = 48 ∧
    (Marshal (createNTPPacket u)).1 =
      [0x23, 0, 0, 0xFA] ++ List.replicate 36 0 ++
        [(((u + 2208988800) % 2 ^ 32).toNat / 2 ^ 24) % 256,
         (((u + 2208988800) % 2 ^ 32).toNat / 2 ^ 16) % 256,
         (((u + 2208988800) % 2 ^ 32).toNat / 2 ^ 8) % 256,
         ((u + 2208988800) % 2 ^ 32).toNat % 256] ++ List.replicate 4 0 ∧
    bigEndianValue (Marshal (createNTPPacket u)).1 40 = ((u + 2208988800) % 2 ^ 32).toNat := by
  have hT : (createNTPPacket u).TransmitTimeSec = ((u + 2208988800) % 2 ^ 32).toNat := by
    have h := createNTPPacket_sec u
    omega
  have hlt : ((u + 2208988800) % 2 ^ 32).toNat < 2 ^ 32 := by
    have h := createNTPPacket_sec_lt u
    rw [hT] at h
    exact h
  have hlist : (Marshal (createNTPPacket u)).1 =
      [0x23, 0, 0, 0xFA] ++ List.replicate 36 0 ++
        [(((u + 2208988800) % 2 ^ 32).toNat / 2 ^ 24) % 256,
         (((u + 2208988800) % 2 ^ 32).toNat / 2 ^ 16) % 256,
         (((u + 2208988800) % 2 ^ 32).toNat / 2 ^ 8) % 256,
         ((u + 2208988800) % 2 ^ 32).toNat % 256] ++ List.replicate 4 0 := by
    rw [Marshal_bytes, hT]
    generalize ((u + 2208988800) % 2 ^ 32).toNat = T
    simp only [createNTPPacket, ntpPacket.zero, Nat.shiftRight_eq_div_pow]
    rfl
  refine ⟨Marshal_err _, ?_, hlist, ?_⟩
  · rw [hlist]
    rfl
  · rw [hlist]
    generalize ((u + 2208988800) % 2 ^ 32).toNat = T at hlt ⊢
    simp only [bigEndianValue, byteAt, List.replicate, List.cons_append, List.nil_append,
      List.getD_cons_zero, List.getD_cons_succ, Nat.reduceAdd]
    omega

/-- C12: for every 48-byte response buffer, the root delay in milliseconds
computed by `main` equals (big-endian value of bytes 4 to 7) * 1000 / 65536; a
buffer with byte 1 = 1 and bytes 4 to 7 = 00 01 00 00 is decoded with
Stratum = 1 and RootDelay = 65536 and gives exactly 1000 ms. -/
theorem root_delay_millis (q : ntpPacket) (b : List Nat) (hb : IsBytes b)
    (hlen : b.length = 48) :
    rootDelayMillis (Unmarshal q b).1 = some ((bigEndianValue b 4 : ℚ) * 1000 / 65536) ∧
    mainRootDelay b = Except.ok (some ((bigEndianValue b 4 : ℚ) * 1000 / 65536)) ∧
    (byteAt b 1 = 1 → byteAt b 4 = 0 → byteAt b 5 = 1 → byteAt b 6 = 0 → byteAt b 7 = 0 →
      (Unmarshal q b).1.Stratum = 1 ∧ (Unmarshal q b).1.RootDelay = 65536 ∧
      rootDelayMillis (Unmarshal q b).1 = some 1000 ∧
      mainRootDelay b = Except.ok (some 1000)) := by
  have hv := bigEndianValue_lt b hb 4
  have hq : ∀ r : ntpPacket,
      rootDelayMillis (Unmarshal r b).1 = some ((bigEndianValue b 4 : ℚ) * 1000 / 65536) := by
    intro r
    rw [Unmarshal_decode r b hb hlen]
    exact fixedPointMillis_eq _ hv
  have hmain : mainRootDelay b = Except.ok (some ((bigEndianValue b 4 : ℚ) * 1000 / 65536)) := by
    have h := hq ntpPacket.zero
    rw [Unmarshal_decode ntpPacket.zero b hb hlen] at h
    unfold mainRootDelay
    rw [Unmarshal_decode ntpPacket.zero b hb hlen]
    simp only [h]
  refine ⟨hq q, hmain, ?_⟩
  intro h1 h4 h5 h6 h7
  have hval : bigEndianValue b 4 = 65536 := by
    unfold bigEndianValue
    rw [h4, h5, h6, h7]
    norm_num
  have hnum : ((bigEndianValue b 4 : ℚ) * 1000 / 65536) = 1000 := by
    rw [hval]
    norm_num
  refine ⟨?_, ?_, ?_, ?_⟩
  · rw [Unmarshal_decode q b hb hlen]
    exact h1
  · rw [Unmarshal_decode q b hb hlen]
    exact hval
  · rw [hq q, hnum]
  · rw [hmain, hnum]

/-- Witness of C12 at `sampleBuffer`, whose byte 1 is 1 and bytes 4 to 7 are
00 01 00 00. -/
theorem root_delay_millis_witness :
    IsBytes sampleBuffer ∧ sampleBuffer.length = 48 ∧
      (Unmarshal ntpPacket.zero sampleBuffer).1.Stratum = 1 ∧
      (Unmarshal ntpPacket.zero sampleBuffer).1.RootDelay = 65536 ∧
      rootDelayMillis (Unmarshal ntpPacket.zero sampleBuffer).1 = some 1000 ∧
      mainRootDelay sampleBuffer = Except.ok (some 1000) :=
  ⟨by decide, by decide,
    (root_delay_millis ntpPacket.zero sampleBuffer (by decide) (by decide)).2.2
      (by decide) (by decide) (by decide) (by decide) (by decide)⟩

/-- C13: for every receiver and every buffer whose length is not 48, `Unmarshal`
returns an error and the receiver is left as it was, in every field. -/
theorem unmarshal_error_keeps_receiver (p : ntpPacket) (data : List Nat)
    (h : data.length ≠ 48) :
    (Unmarshal p data).2 ≠ none ∧ (Unmarshal p data).1 = p := by
  unfold Unmarshal
  rw [if_pos h]
  exact ⟨by simp, rfl⟩

/-- Witness of C13 at `samplePacket` and a buffer of 47 bytes. -/
theorem unmarshal_error_keeps_receiver_witness :
    (List.replicate 47 255).length ≠ 48 ∧
      (Unmarshal samplePacket (List.replicate 47 255)).2 ≠ none ∧
      (Unmarshal samplePacket (List.replicate 47 255)).1 = samplePacket :=
  ⟨by decide, unmarshal_error_keeps_receiver samplePacket (List.replicate 47 255) (by decide)⟩

/-- C14: for every packet whose fields lie in their Go types, the packet decoded
from the bytes of `Marshal` equals the packet exactly when LI is at most 3, VN at
most 7 and Mode at most 7; in every case the decode succeeds and agrees with the
packet on each of the fourteen fields other than LI, VN and Mode. -/
theorem roundtrip_iff_in_range (p q : ntpPacket) (hty : p.InGoTypes) :
    ((Unmarshal q (Marshal p).1).1 = p ↔ p.LI ≤ 3 ∧ p.VN ≤ 7 ∧ p.Mode ≤ 7) ∧
    (Unmarshal q (Marshal p).1).2 = none ∧
    ((Unmarshal q (Marshal p).1).1.Stratum = p.Stratum ∧
      (Unmarshal q (Marshal p).1).1.Poll = p.Poll ∧
      (Unmarshal q (Marshal p).1).1.Prec = p.Prec ∧
      (Unmarshal q (Marshal p).1).1.RootDelay = p.RootDelay ∧
      (Unmarshal q (Marshal p).1).1.RootDispersion = p.RootDispersion ∧
      (Unmarshal q (Marshal p).1).1.ReferenceID = p.ReferenceID ∧
      (Unmarshal q (Marshal p).1).1.ReferenceTimeSec = p.ReferenceTimeSec ∧
      (Unmarshal q (Marshal p).1).1.ReferenceTimeFrac = p.ReferenceTimeFrac ∧
      (Unmarshal q (Marshal p).1).1.OriginateTimeSec = p.OriginateTimeSec ∧
      (Unmarshal q (Marshal p).1).1.OriginateTimeFrac = p.OriginateTimeFrac ∧
      (Unmarshal q (Marshal p).1).1.ReceiveTimeSec = p.ReceiveTimeSec ∧
      (Unmarshal q (Marshal p).1).1.ReceiveTimeFrac = p.ReceiveTimeFrac ∧
      (Unmarshal q (Marshal p).1).1.TransmitTimeSec = p.TransmitTimeSec ∧
      (Unmarshal q (Marshal p).1).1.TransmitTimeFrac = p.TransmitTimeFrac) := by
  have hb0 := firstByte_lt p.LI p.VN p.Mode hty.2.2.1
  obtain ⟨l1, l2, l3⟩ := firstByte_fields_le _ hb0
  rw [Unmarshal_Marshal p q hty]
  refine ⟨⟨?_, ?_⟩, rfl, rfl, rfl, rfl, rfl, rfl, rfl, rfl, rfl, rfl, rfl, rfl, rfl, rfl, rfl⟩
  · intro h
    have e1 := congrArg ntpPacket.LI h
    have e2 := congrArg ntpPacket.VN h
    have e3 := congrArg ntpPacket.Mode h
    simp only at e1 e2 e3
    exact ⟨e1 ▸ l1, e2 ▸ l2, e3 ▸ l3⟩
  · rintro ⟨h1, h2, h3⟩
    obtain ⟨e1, e2, e3, -⟩ :=
      firstByte_encode_decode p.LI (by omega) p.VN (by omega) p.Mode (by omega)
    simp only [e1, e2, e3]

/-- Witness of C14 at `widePacket`, whose LI, VN and Mode are 5, 9 and 12: its
round trip is not the identity, and the other fields are kept. -/
theorem roundtrip_iff_in_range_witness :
    widePacket.InGoTypes ∧
      (Unmarshal ntpPacket.zero (Marshal widePacket).1).1 ≠ widePacket ∧
      (Unmarshal ntpPacket.zero (Marshal widePacket).1).1.Stratum = widePacket.Stratum ∧
      (Unmarshal ntpPacket.zero (Marshal widePacket).1).1.TransmitTimeSec
        = widePacket.TransmitTimeSec :=
  ⟨by decide,
    fun h => absurd ((roundtrip_iff_in_range widePacket ntpPacket.zero (by decide)).1.mp h)
      (by decide),
    (roundtrip_iff_in_range widePacket ntpPacket.zero (by decide)).2.2.1,
    (roundtrip_iff_in_range widePacket ntpPacket.zero (by decide)).2.2.2.2.2.2.2.2.2.2.2.2.2.2.1⟩

/-- C15: for every 48-byte buffer and every two receivers, `Unmarshal` leaves the
two receivers equal (and returns the same nil error): all seventeen fields are
overwritten, so the result depends on the buffer only, and its LI is at most 3,
its VN at most 7 and its Mode at most 7. -/
theorem unmarshal_overwrites_receiver (p q : ntpPacket) (b : List Nat) (hb : IsBytes b)
    (hlen : b.length = 48) :
    Unmarshal p b = Unmarshal q b ∧ (Unmarshal p b).2 = none ∧
    (Unmarshal p b).1.LI ≤ 3 ∧ (Unmarshal p b).1.VN ≤ 7 ∧ (Unmarshal p b).1.Mode ≤ 7 := by
  refine ⟨?_, ?_, ?_⟩
  · rw [Unmarshal_of_length p b hlen, Unmarshal_of_length q b hlen]
  · rw [Unmarshal_of_length p b hlen]
  · rw [Unmarshal_of_length p b hlen]
    exact firstByte_fields_le (byteAt b 0) (byteAt_lt hb 0)

/-- Witness of C15 at `sampleBuffer` with the receivers `samplePacket` and
`widePacket`. -/
theorem unmarshal_overwrites_receiver_witness :
    IsBytes sampleBuffer ∧ sampleBuffer.length = 48 ∧
      Unmarshal samplePacket sampleBuffer = Unmarshal widePacket sampleBuffer ∧
      (Unmarshal samplePacket sampleBuffer).2 = none ∧
      (Unmarshal samplePacket sampleBuffer).1.LI ≤ 3 ∧
      (Unmarshal samplePacket sampleBuffer).1.VN ≤ 7 ∧
      (Unmarshal samplePacket sampleBuffer).1.Mode ≤ 7 :=
  ⟨by decide, by decide,
    unmarshal_overwrites_receiver samplePacket widePacket sampleBuffer (by decide) (by decide)⟩

/-- C16: for every Unix time u with −2208988800 ≤ u < 2^32 − 2208988800, the
transmit timestamp of the request converts back to seconds u and nanoseconds 0;
at u = 2^32 − 2208988800 the wrapped timestamp converts back to seconds
−2208988800. -/
theorem request_timestamp_roundtrip (u : Int) (h1 : -2208988800 ≤ u)
    (h2 : u < 2 ^ 32 - 2208988800) :
    TransmitTime (createNTPPacket u) = some ⟨u, 0⟩ ∧
    ntpTimestampToTime (createNTPPacket u).TransmitTimeSec (createNTPPacket u).TransmitTimeFrac
      = some ⟨u, 0⟩ ∧
    TransmitTime (createNTPPacket (2 ^ 32 - 2208988800)) = some ⟨-2208988800, 0⟩ := by
  have key : ∀ v : Int, TransmitTime (createNTPPacket v)
      = some ⟨(v + 2208988800) % 2 ^ 32 - 2208988800, 0⟩ := by
    intro v
    have hs := createNTPPacket_sec v
    have hf : (createNTPPacket v).TransmitTimeFrac = 0 := rfl
    unfold TransmitTime
    rw [hf, ntpTimestampToTime_eq _ 0 (createNTPPacket_sec_lt v) (by decide), hs]
    rfl
  have e1 : (u + 2208988800) % 2 ^ 32 - 2208988800 = u := by omega
  have e2 : ((2 : Int) ^ 32 - 2208988800 + 2208988800) % 2 ^ 32 - 2208988800
      = -2208988800 := by norm_num
  have hu := key u
  rw [e1] at hu
  have hw := key (2 ^ 32 - 2208988800)
  rw [e2] at hw
  exact ⟨hu, hu, hw⟩

/-- Witness of C16 at u = 1700000000. -/
theorem request_timestamp_roundtrip_witness :
    TransmitTime (createNTPPacket 1700000000) = some ⟨1700000000, 0⟩ ∧
    ntpTimestampToTime (createNTPPacket 1700000000).TransmitTimeSec
      (createNTPPacket 1700000000).TransmitTimeFrac = some ⟨1700000000, 0⟩ ∧
    TransmitTime (createNTPPacket (2 ^ 32 - 2208988800)) = some ⟨-2208988800, 0⟩ :=
  request_timestamp_roundtrip 1700000000 (by decide) (by decide)

/-- C17: `ntpTimestampToTime` is monotone: when (s1, f1) is at most (s2, f2) in
the lexicographic order, both conversions return an instant, the instant of
(s1, f1), measured as seconds * 10^9 + nanoseconds, is at most that of (s2, f2),
and it is strictly smaller whenever s1 < s2. -/
theorem timestamp_monotone (s1 f1 s2 f2 : Nat) (hs1 : s1 < 2 ^ 32) (hf1 : f1 < 2 ^ 32)
    (hs2 : s2 < 2 ^ 32) (hf2 : f2 < 2 ^ 32) (hle : s1 < s2 ∨ (s1 = s2 ∧ f1 ≤ f2)) :
    ∃ t1 t2 : Time, ntpTimestampToTime s1 f1 = some t1 ∧ ntpTimestampToTime s2 f2 = some t2 ∧
      t1.nanos ≤ t2.nanos ∧ (s1 < s2 → t1.nanos < t2.nanos) := by
  refine ⟨_, _, ntpTimestampToTime_eq s1 f1 hs1 hf1, ntpTimestampToTime_eq s2 f2 hs2 hf2, ?_, ?_⟩
  · show ((s1 : Int) - 2208988800) * 1000000000 + ((f1 * 1000000000 / 4294967296 : Nat) : Int)
      ≤ ((s2 : Int) - 2208988800) * 1000000000 + ((f2 * 1000000000 / 4294967296 : Nat) : Int)
    rcases hle with h | ⟨h, h'⟩ <;> omega
  · intro h
    show ((s1 : Int) - 2208988800) * 1000000000 + ((f1 * 1000000000 / 4294967296 : Nat) : Int)
      < ((s2 : Int) - 2208988800) * 1000000000 + ((f2 * 1000000000 / 4294967296 : Nat) : Int)
    omega

/-- Witness of C17 across a seconds boundary: the largest fraction of second 5
against the smallest fraction of second 6. -/
theorem timestamp_monotone_witness :
    ∃ t1 t2 : Time, ntpTimestampToTime 5 4294967295 = some t1 ∧
      ntpTimestampToTime 6 0 = some t2 ∧ t1.nanos ≤ t2.nanos ∧
      ((5 : Nat) < 6 → t1.nanos < t2.nanos) :=
  timestamp_monotone 5 4294967295 6 0 (by decide) (by decide) (by decide) (by decide)
    (Or.inl (by decide))

end NtpCheck
